import Mathlib

/-!
Shallow embedding of `src/kfs_transformer/transformer.py`, the CloudWatch
Logs → Kinesis Firehose transformer lambda, together with proofs about its
per-record classification, cumulative size-budget eviction, re-ingestion
batching and bounded retry logic.

Modelling conventions:
* Python `bytes` values are `List Nat` (byte values).
* Python dicts are insertion-ordered association lists; `assocSet` mirrors
  `d[k] = v` (update-in-place for an existing key, append otherwise).
* A raised exception is an `Option`/`Except` failure of the embedding.
* `gzip` decompression plus `json.loads` of a record payload, `json.dumps`,
  `datetime.isoformat` and `date.today` are impure or external-library
  steps; they are taken as explicit function parameters of the embedded
  code, while base64 encoding/decoding and all the control flow the claims
  are about (classification, size accounting, eviction, batching, retry)
  are embedded directly.
-/

namespace Kfs

/-- Byte strings (Python `bytes`): a list of byte values. -/
abbrev Bytes := List Nat

/-- Value of one base64 alphabet character (`A-Z a-z 0-9 + /`), `none` for a
character outside the alphabet. -/
def b64CharVal (c : Nat) : Option Nat :=
  if 65 ≤ c ∧ c ≤ 90 then some (c - 65)
  else if 97 ≤ c ∧ c ≤ 122 then some (c - 71)
  else if 48 ≤ c ∧ c ≤ 57 then some (c + 4)
  else if c = 43 then some 62
  else if c = 47 then some 63
  else none

/-- Character encoding one 6-bit value in the base64 alphabet. -/
def b64ValChar (v : Nat) : Nat :=
  if v < 26 then v + 65
  else if v < 52 then v + 71
  else if v < 62 then v - 4
  else if v = 62 then 43
  else 47

/-- Decode base64 text four characters at a time; `=` (byte 61) padding is
allowed only in the final quantum.  `none` models `binascii.Error`. -/
def b64decodeGroups : List Nat → Option Bytes
  | [] => some []
  | c0 :: c1 :: c2 :: c3 :: rest =>
    match b64CharVal c0, b64CharVal c1 with
    | some v0, some v1 =>
      if c2 = 61 ∧ c3 = 61 then
        if rest = [] then some [v0 * 4 + v1 / 16] else none
      else if c3 = 61 then
        match b64CharVal c2 with
        | some v2 =>
          if rest = [] then some [v0 * 4 + v1 / 16, (v1 % 16) * 16 + v2 / 4]
          else none
        | none => none
      else
        match b64CharVal c2, b64CharVal c3 with
        | some v2, some v3 =>
          (b64decodeGroups rest).map
            (fun tail => (v0 * 4 + v1 / 16) :: ((v1 % 16) * 16 + v2 / 4) ::
              ((v2 % 4) * 64 + v3) :: tail)
        | _, _ => none
    | _, _ => none
  | _ => none

/-- `base64.b64decode` with its default leniency: characters outside the
alphabet are discarded before decoding; bad padding yields `none`. -/
def b64decode (s : Bytes) : Option Bytes :=
  b64decodeGroups (s.filter (fun c => (b64CharVal c).isSome || c = 61))

/-- `base64.b64encode`: three input bytes become four alphabet characters,
with `=` (byte 61) padding for a short final group. -/
def b64encode : Bytes → Bytes
  | [] => []
  | [x] => [b64ValChar (x / 4), b64ValChar (x % 4 * 16), 61, 61]
  | [x, y] =>
    [b64ValChar (x / 4), b64ValChar (x % 4 * 16 + y / 16),
     b64ValChar (y % 16 * 4), 61]
  | x :: y :: z :: rest =>
    b64ValChar (x / 4) :: b64ValChar (x % 4 * 16 + y / 16) ::
      b64ValChar (y % 16 * 4 + z / 64) :: b64ValChar (z % 64) :: b64encode rest

/-- UTF-8 encoding of one character (Python `str.encode("utf-8")`). -/
def utf8Bytes (c : Char) : Bytes :=
  let n := c.toNat
  if n < 128 then [n]
  else if n < 2048 then [192 + n / 64, 128 + n % 64]
  else if n < 65536 then
    [224 + n / 4096, 128 + n / 64 % 64, 128 + n % 64]
  else
    [240 + n / 262144, 128 + n / 4096 % 64, 128 + n / 64 % 64, 128 + n % 64]

/-- `s.encode("utf-8")`. -/
def strBytes (s : String) : Bytes := s.data.flatMap utf8Bytes

/-- The whitespace characters removed by Python's `str.strip()`. -/
def isPySpace (c : Char) : Bool :=
  c = ' ' || c = '\t' || c = '\n' || c = '\r' || c = '\x0b' || c = '\x0c'

/-- Python `str.strip()`: drop leading and trailing whitespace. -/
def pyStrip (s : String) : String :=
  ⟨((s.data.dropWhile isPySpace).reverse.dropWhile isPySpace).reverse⟩

/-- A JSON value as produced by `json.loads` (JSON numbers are abstracted
to `Int`; no claim depends on numeric values). -/
inductive PyValue where
  | null
  | bool (b : Bool)
  | num (n : Int)
  | str (s : String)
  | arr (els : List PyValue)
  | obj (kvs : List (String × PyValue))

/-- A Python dict with string keys, as an insertion-ordered association
list. -/
abbrev PyDict := List (String × PyValue)

/-- Python dict lookup `d[k]` (first — and, for dicts built by `assocSet`,
only — binding of the key), `none` modelling `KeyError`. -/
def assocGet {α : Type} : List (String × α) → String → Option α
  | [], _ => none
  | (k, v) :: rest, key => if k = key then some v else assocGet rest key

/-- Python dict assignment `d[k] = v`: replace the value of an existing
key in place, otherwise append the new binding (insertion order). -/
def assocSet {α : Type} : List (String × α) → String → α → List (String × α)
  | [], key, v => [(key, v)]
  | (k, w) :: rest, key, v =>
    if k = key then (k, v) :: rest else (k, w) :: assocSet rest key v

/-- `d.update(els)` when the argument is a list: elements are consumed in
order and each must be a two-element `[key, value]` sequence; iteration
stops at the first unusable element (the raised `TypeError`/`ValueError`
is swallowed by the caller's `except`, keeping the pairs merged so far).
Pairs whose key is not a string (legal in Python, producing a non-string
dict key) are conservatively treated as the raising case; no theorem
below exercises them. -/
def updatePairs (d : PyDict) : List PyValue → PyDict
  | [] => d
  | PyValue.arr [PyValue.str k, v] :: rest => updatePairs (assocSet d k v) rest
  | _ :: _ => d

/-- `es_source.update(message)` inside `try/except`: a dict argument merges
all its bindings (overwriting existing keys); a list argument merges
leading `[key, value]` pairs; a scalar or string argument raises
(`TypeError`, or `ValueError` on unpacking 1-character strings) and the
swallowed exception leaves the dict unchanged. -/
def dictUpdate (d : PyDict) : PyValue → PyDict
  | PyValue.obj kvs => kvs.foldl (fun acc p => assocSet acc p.1 p.2) d
  | PyValue.arr els => updatePairs d els
  | _ => d

/-- The decoded CloudWatch Logs log event (`transformer.py` docstring). -/
structure LogEvent where
  id : String
  timestamp : Int
  message : String
deriving DecidableEq

/-- The decoded envelope of one record's payload. -/
structure Envelope where
  messageType : String
  owner : String
  logGroup : String
  logStream : String
  logEvents : List LogEvent
deriving DecidableEq

/-- The `es_source` literal of `transformLogEvent` (lines 105-112) before
the message merge: the six reserved `@`-prefixed fields.  `iso` stands for
`datetime.fromtimestamp(float(ts)/1000).isoformat()`. -/
def reservedFields (iso : Int → String) (data : Envelope) (log_event : LogEvent) :
    PyDict :=
  [("@id", PyValue.str log_event.id),
   ("@owner", PyValue.str data.owner),
   ("@log_group", PyValue.str data.logGroup),
   ("@log_stream", PyValue.str data.logStream),
   ("@timestamp", PyValue.str (iso log_event.timestamp)),
   ("@message", PyValue.str (pyStrip log_event.message))]

/-- The `es_source` dict of `transformLogEvent` (lines 105-119) after the
`try: es_source.update(json.loads(...)) except: pass` step.  `loads`
stands for `json.loads` (`none` = parse failure). -/
def esSource (iso : Int → String) (loads : String → Option PyValue)
    (data : Envelope) (log_event : LogEvent) : PyDict :=
  match loads (pyStrip log_event.message) with
  | some m => dictUpdate (reservedFields iso data log_event) m
  | none => reservedFields iso data log_event

/-- `transformLogEvent` (lines 85-126): the bulk-API fragment for one log
event.  `dumps` stands for `json.dumps`, `pfx`/`todayStr` for
`LOGS_INDEX_PREFIX` and `date.today()`. -/
def transformLogEvent (pfx todayStr : String) (iso : Int → String)
    (loads : String → Option PyValue) (dumps : PyDict → String)
    (data : Envelope) (log_event_index : Nat) (log_event : LogEvent) : String :=
  let es_action := dumps [("index",
    PyValue.obj [("_index", PyValue.str (pfx ++ "-" ++ todayStr))])]
  let es_source := dumps (esSource iso loads data log_event)
  if log_event_index = 0 then es_source ++ "\n"
  else es_action ++ "\n" ++ es_source ++ "\n"

/-- One element of `event['records']`: the base64 payload text plus the
partition key of `kinesisRecordMetadata` when the source is a Kinesis
stream (`none` models the key being absent). -/
structure InputRecord where
  recordId : String
  data : Bytes
  kinesisPartitionKey : Option String
deriving DecidableEq

/-- The per-record classification of an output record. -/
inductive RResult where
  | Ok
  | Dropped
  | ProcessingFailed
deriving DecidableEq

/-- One element of the returned `records` list: `data` is present iff it
has not been deleted (`del records[idx]['data']` sets it to `none`). -/
structure ORec where
  recordId : String
  result : RResult
  data : Option Bytes
deriving DecidableEq

/-- The per-record body of `processRecords` (lines 130-165).  `parse`
stands for gunzip + `json.loads` of the decoded payload (`none` = raised
decompression/parse error); `transform` is `transformLogEvent` with its
impure inputs fixed.  `none` for the whole call models an uncaught
exception. -/
def processOne (parse : Bytes → Option Envelope)
    (transform : Envelope → Nat → LogEvent → String)
    (r : InputRecord) : Option ORec :=
  match b64decode r.data with
  | none => none
  | some raw =>
    match parse raw with
    | none => none
    | some data =>
      if data.messageType = "CONTROL_MESSAGE" then
        some ⟨r.recordId, RResult.Dropped, none⟩
      else if data.messageType = "DATA_MESSAGE" then
        let joinedData := String.join
          ((data.logEvents.enum).map (fun p => transform data p.1 p.2))
        let dataBytes := strBytes joinedData
        let encodedData := b64encode dataBytes
        if encodedData.length ≤ 6000000 then
          some ⟨r.recordId, RResult.Ok, some encodedData⟩
        else
          some ⟨r.recordId, RResult.ProcessingFailed, none⟩
      else
        some ⟨r.recordId, RResult.ProcessingFailed, none⟩

/-- `list(processRecords(event['records']))` (lines 129-165, forced by
`list()` at line 254): one output per input, aborting the whole batch
(`none`) if any record raises. -/
def processRecords (parse : Bytes → Option Envelope)
    (transform : Envelope → Nat → LogEvent → String) :
    List InputRecord → Option (List ORec)
  | [] => some []
  | r :: rs => do
    let o ← processOne parse transform r
    let os ← processRecords parse transform rs
    pure (o :: os)

/-- `createReingestionRecord` output (line 234-238): the base64-decoded
original payload, plus the partition key on the Kinesis path. -/
structure RRec where
  data : Bytes
  partitionKey : Option String
deriving DecidableEq

/-- The put-request shape built by `getReingestionRecord` (lines 241-245). -/
structure PutEntry where
  Data : Bytes
  PartitionKey : Option String
deriving DecidableEq

/-- `createReingestionRecord` (lines 234-238); `none` models the raised
`binascii.Error`/`KeyError` when the payload or metadata is unusable. -/
def createReingestionRecord (isSas : Bool) (originalRecord : InputRecord) :
    Option RRec :=
  match b64decode originalRecord.data with
  | none => none
  | some d =>
    if isSas then
      match originalRecord.kinesisPartitionKey with
      | none => none
      | some pk => some ⟨d, some pk⟩
    else
      some ⟨d, none⟩

/-- `getReingestionRecord` (lines 241-245). -/
def getReingestionRecord (isSas : Bool) (reIngestionRecord : RRec) : PutEntry :=
  if isSas then ⟨reIngestionRecord.data, reIngestionRecord.partitionKey⟩
  else ⟨reIngestionRecord.data, none⟩

/-- The mutable state of the eviction loop of `lambda_handler`
(lines 255-259): `projectedSize`, `recordsToReingest`, `putRecordBatches`
and `totalRecordsToBeReingested`. -/
structure BState where
  projectedSize : Nat
  recordsToReingest : List PutEntry
  putRecordBatches : List (List PutEntry)
  total : Nat
deriving DecidableEq

/-- Lines 274-277: flush the pending group once it holds exactly 500
records. -/
def flushCheck (st : BState) : BState :=
  if st.recordsToReingest.length = 500 then
    ⟨st.projectedSize, [], st.putRecordBatches ++ [st.recordsToReingest], st.total⟩
  else st

/-- The `for idx, rec in enumerate(records)` eviction loop of
`lambda_handler` (lines 261-277), returning the (element-wise updated)
records together with the final loop state.  `lookup` is access to
`dataByRecordId`; `none` models a raised `KeyError`. -/
def budgetLoop (lookup : String → Option RRec) (isSas : Bool) :
    BState → List ORec → Option (List ORec × BState)
  | st, [] => some ([], st)
  | st, rec :: rest =>
    if rec.result ≠ RResult.Ok then
      (budgetLoop lookup isSas st rest).map (fun p => (rec :: p.1, p.2))
    else
      match rec.data with
      | none => none
      | some d =>
        let projectedSize := st.projectedSize + (d.length + rec.recordId.length)
        if projectedSize > 6000000 then
          match lookup rec.recordId with
          | none => none
          | some rr =>
            let st1 := flushCheck ⟨projectedSize,
              st.recordsToReingest ++ [getReingestionRecord isSas rr],
              st.putRecordBatches, st.total + 1⟩
            (budgetLoop lookup isSas st1 rest).map
              (fun p => (⟨rec.recordId, RResult.Dropped, none⟩ :: p.1, p.2))
        else
          let st1 := flushCheck ⟨projectedSize, st.recordsToReingest,
            st.putRecordBatches, st.total⟩
          (budgetLoop lookup isSas st1 rest).map (fun p => (rec :: p.1, p.2))

/-- The `dataByRecordId` dict comprehension of line 256 (later records
with a duplicate `recordId` overwrite earlier ones, as in a Python dict
comprehension); `none` if any `createReingestionRecord` call raises. -/
def buildDB (isSas : Bool) :
    List InputRecord → List (String × RRec) → Option (List (String × RRec))
  | [], db => some db
  | r :: rs, db =>
    match createReingestionRecord isSas r with
    | none => none
    | some rr => buildDB isSas rs (assocSet db r.recordId rr)

/-- The record-pipeline portion of `lambda_handler` (lines 254-281 and the
final `return {"records": records}`): process the batch, build
`dataByRecordId`, run the eviction loop, and append the leftover group as
the last batch.  The value is the returned records together with the
groups handed to the stream writer and `totalRecordsToBeReingested`;
`none` models an uncaught exception. -/
def lambdaHandlerCore (parse : Bytes → Option Envelope)
    (transform : Envelope → Nat → LogEvent → String) (isSas : Bool)
    (inputs : List InputRecord) :
    Option (List ORec × List (List PutEntry) × Nat) := do
  let records ← processRecords parse transform inputs
  let db ← buildDB isSas inputs []
  let (out, st) ← budgetLoop (fun rid => assocGet db rid) isSas ⟨0, [], [], 0⟩ records
  let putRecordBatches :=
    st.putRecordBatches ++ (if st.recordsToReingest.isEmpty then [] else [st.recordsToReingest])
  pure (out, putRecordBatches, st.total)

/-- Outcome of one `put_record_batch`/`put_records` call: either the call
raises, or it returns a failed count plus the per-entry `ErrorCode` field
(`none` = key absent, `some ""` = empty code). -/
inductive ClientResult where
  | raises (msg : String)
  | ok (failedCount : Nat) (results : List (Option String))
deriving DecidableEq

/-- The `for idx, res in enumerate(response[...])` scan (lines 183-189):
collect error codes and the records to retry; `none` models the
`IndexError` when the response has more entries than records. -/
def collectFailed (records : List PutEntry) :
    List (Option String) → Nat → Option (List String × List PutEntry)
  | [], _ => some ([], [])
  | res :: rest, idx =>
    match res with
    | none => collectFailed records rest (idx + 1)
    | some code =>
      if code = "" then collectFailed records rest (idx + 1)
      else
        match records.get? idx with
        | none => none
        | some r =>
          (collectFailed records rest (idx + 1)).map
            (fun p => (code :: p.1, r :: p.2))

/-- Lines 168-192 / 201-224 common to both writers: the `failedRecords`
and `errMsg` left in scope after the call and the response scan. -/
def attemptOutcome (records : List PutEntry) :
    ClientResult → Option (List PutEntry × String)
  | ClientResult.raises e => some (records, e)
  | ClientResult.ok failedCount results =>
    if failedCount > 0 then
      (collectFailed records results 0).map
        (fun p => (p.2, "Individual error codes: " ++ String.intercalate "," p.1))
    else
      some ([], "")

/-- The fatal message of line 198/231. -/
def exhaustedMsg (maxAttempts : Nat) (errMsg : String) : String :=
  "Could not put records after " ++ toString maxAttempts ++ " attempts. " ++ errMsg

/-- `putRecordsToFirehoseStream` (lines 168-198).  The client is a
function of the attempt number so that successive calls may differ;
`Except.error` models the raised `RuntimeError` (or an `IndexError` in
the response scan). -/
def putRecordsToFirehoseStream (client : Nat → List PutEntry → ClientResult)
    (streamName : String) (records : List PutEntry)
    (attemptsMade maxAttempts : Nat) : Except String Unit :=
  match attemptOutcome records (client attemptsMade records) with
  | none => Except.error "IndexError"
  | some (failedRecords, errMsg) =>
    if failedRecords.length > 0 then
      if h : attemptsMade + 1 < maxAttempts then
        putRecordsToFirehoseStream client streamName failedRecords
          (attemptsMade + 1) maxAttempts
      else
        Except.error (exhaustedMsg maxAttempts errMsg)
    else
      Except.ok ()
termination_by maxAttempts - attemptsMade
decreasing_by omega

/-- `putRecordsToKinesisStream` (lines 201-231): identical control flow to
the Firehose writer. -/
def putRecordsToKinesisStream (client : Nat → List PutEntry → ClientResult)
    (streamName : String) (records : List PutEntry)
    (attemptsMade maxAttempts : Nat) : Except String Unit :=
  match attemptOutcome records (client attemptsMade records) with
  | none => Except.error "IndexError"
  | some (failedRecords, errMsg) =>
    if failedRecords.length > 0 then
      if h : attemptsMade + 1 < maxAttempts then
        putRecordsToKinesisStream client streamName failedRecords
          (attemptsMade + 1) maxAttempts
      else
        Except.error (exhaustedMsg maxAttempts errMsg)
    else
      Except.ok ()
termination_by maxAttempts - attemptsMade
decreasing_by omega

/-- The size the eviction loop charges for one record: `len(rec['data']) +
len(rec['recordId'])` for records marked `Ok`, nothing otherwise. -/
def okContrib (r : ORec) : Nat :=
  if r.result = RResult.Ok then (r.data.getD []).length + r.recordId.length else 0

/-- Total size charged for a record list. -/
def okSize (l : List ORec) : Nat := (l.map okContrib).sum

/-- The ordered list of re-ingestion candidates the eviction loop emits,
starting from accumulated size `ps`: one `getReingestionRecord` per
over-budget `Ok` record, nothing for any other record.  (Measure used to
state theorems about `budgetLoop`; the `getD` default is irrelevant
whenever the loop itself succeeds.) -/
def evictedCands (lookup : String → Option RRec) (isSas : Bool) :
    Nat → List ORec → List PutEntry
  | _, [] => []
  | ps, rec :: rest =>
    if rec.result = RResult.Ok then
      let ps' := ps + ((rec.data.getD []).length + rec.recordId.length)
      if ps' > 6000000 then
        getReingestionRecord isSas ((lookup rec.recordId).getD ⟨[], none⟩) ::
          evictedCands lookup isSas ps' rest
      else evictedCands lookup isSas ps' rest
    else evictedCands lookup isSas ps rest

/-- Reference chunking of a candidate stream: append one element at a
time to the open group, flushing it into the finished groups at exactly
500 elements (the shape of lines 274-277 seen across a whole run). -/
def chunkAcc {α : Type} : List α → List (List α) → List α → List α × List (List α)
  | cur, batches, [] => (cur, batches)
  | cur, batches, x :: xs =>
    let c := cur ++ [x]
    if c.length = 500 then chunkAcc [] (batches ++ [c]) xs
    else chunkAcc c batches xs

/-! ### Association-list (Python dict) lemmas -/

theorem assocGet_set_self {α : Type} (d : List (String × α)) (k : String) (v : α) :
    assocGet (assocSet d k v) k = some v := by
  induction d with
  | nil => simp [assocSet, assocGet]
  | cons hd tl ih =>
    by_cases h : hd.1 = k
    · simp [assocSet, h, assocGet]
    · simp [assocSet, h, assocGet, ih]

theorem assocGet_set_ne {α : Type} (d : List (String × α)) (k k2 : String) (v : α)
    (h : k ≠ k2) : assocGet (assocSet d k v) k2 = assocGet d k2 := by
  induction d with
  | nil => simp [assocSet, assocGet, h]
  | cons hd tl ih =>
    by_cases h1 : hd.1 = k
    · simp [assocSet, h1, assocGet, h]
    · by_cases h2 : hd.1 = k2
      · simp [assocSet, h1, assocGet, h2, Ne.symm h]
      · simp [assocSet, h1, assocGet, h2, ih]

/-! ### okSize lemmas -/

theorem okSize_nil : okSize [] = 0 := rfl

theorem okSize_cons (a : ORec) (l : List ORec) :
    okSize (a :: l) = okContrib a + okSize l := by
  simp [okSize]

theorem okSize_append (l m : List ORec) :
    okSize (l ++ m) = okSize l + okSize m := by
  simp [okSize]

theorem okSize_take_mono (l : List ORec) {m n : Nat} (h : m ≤ n) :
    okSize (l.take m) ≤ okSize (l.take n) := by
  have : n = m + (n - m) := by omega
  rw [this, List.take_add, okSize_append]
  omega

/-! ### budgetLoop characterization -/

theorem flushCheck_projectedSize (st : BState) :
    (flushCheck st).projectedSize = st.projectedSize := by
  unfold flushCheck; split <;> rfl

/-- Element-wise characterization of the eviction loop: a record is
rewritten to `Dropped` with its data removed exactly when it entered as
`Ok` and the running total through it exceeds the 6,000,000 ceiling;
every other record passes through unchanged. -/
theorem budgetLoop_get (lookup : String → Option RRec) (isSas : Bool)
    (records : List ORec) :
    ∀ (st : BState) (out : List ORec) (st2 : BState),
      budgetLoop lookup isSas st records = some (out, st2) →
      ∀ (i : Nat) (r : ORec), records.get? i = some r →
        out.get? i = some
          (if r.result = RResult.Ok ∧
              st.projectedSize + okSize (records.take (i + 1)) > 6000000 then
            ⟨r.recordId, RResult.Dropped, none⟩
          else r) := by
  induction records with
  | nil => intro st out st2 h i r hi; simp at hi
  | cons rec rest ih =>
    intro st out st2 h i r hi
    by_cases hok : rec.result = RResult.Ok
    · -- Ok record: data must be present and the size check decides its fate
      rw [budgetLoop] at h
      simp only [hok, ne_eq, not_true_eq_false, if_false] at h
      cases hd : rec.data with
      | none => rw [hd] at h; simp at h
      | some d =>
        rw [hd] at h
        simp only at h
        by_cases hover :
            st.projectedSize + (d.length + rec.recordId.length) > 6000000
        · rw [if_pos hover] at h
          cases hlk : lookup rec.recordId with
          | none => rw [hlk] at h; simp at h
          | some rr =>
            rw [hlk] at h
            simp only at h
            obtain ⟨p, hp, hpe⟩ := Option.map_eq_some'.mp h
            injection hpe with ho hst
            subst ho
            cases i with
            | zero =>
              simp only [List.get?] at hi
              cases hi
              have h2 : 6000000 < st.projectedSize + okSize [rec] := by
                simp [okSize, okContrib, hok, hd]
                omega
              simp [hok, h2]
            | succ i =>
              simp only [List.get?] at hi ⊢
              have := ih _ _ _ hp i r hi
              rw [this]
              have hps : (flushCheck ⟨st.projectedSize + (d.length + rec.recordId.length),
                  st.recordsToReingest ++ [getReingestionRecord isSas rr],
                  st.putRecordBatches, st.total + 1⟩).projectedSize
                  = st.projectedSize + (d.length + rec.recordId.length) :=
                flushCheck_projectedSize _
              by_cases hc : r.result = RResult.Ok
              · rw [List.take_succ_cons, okSize_cons]
                have hsz : okContrib rec = d.length + rec.recordId.length := by
                  simp [okContrib, hok, hd]
                rw [hsz, hps]
                congr 1
                have : st.projectedSize + (d.length + rec.recordId.length +
                    okSize (rest.take (i + 1)))
                    = st.projectedSize + (d.length + rec.recordId.length) +
                      okSize (rest.take (i + 1)) := by omega
                rw [this]
              · simp [hc]
        · rw [if_neg hover] at h
          obtain ⟨p, hp, hpe⟩ := Option.map_eq_some'.mp h
          injection hpe with ho hst
          subst ho
          cases i with
          | zero =>
            simp only [List.get?] at hi
            cases hi
            have h2 : ¬ 6000000 < st.projectedSize + okSize [rec] := by
              simp [okSize, okContrib, hok, hd]
              omega
            simp [hok, h2]
          | succ i =>
            simp only [List.get?] at hi ⊢
            have := ih _ _ _ hp i r hi
            rw [this]
            have hps : (flushCheck ⟨st.projectedSize + (d.length + rec.recordId.length),
                st.recordsToReingest, st.putRecordBatches, st.total⟩).projectedSize
                = st.projectedSize + (d.length + rec.recordId.length) :=
              flushCheck_projectedSize _
            by_cases hc : r.result = RResult.Ok
            · rw [List.take_succ_cons, okSize_cons]
              have hsz : okContrib rec = d.length + rec.recordId.length := by
                simp [okContrib, hok, hd]
              rw [hsz, hps]
              congr 1
              have : st.projectedSize + (d.length + rec.recordId.length +
                  okSize (rest.take (i + 1)))
                  = st.projectedSize + (d.length + rec.recordId.length) +
                    okSize (rest.take (i + 1)) := by omega
              rw [this]
            · simp [hc]
    · -- non-Ok record: passes through untouched with the state unchanged
      rw [budgetLoop] at h
      simp only [ne_eq, hok, not_false_eq_true, if_true] at h
      obtain ⟨p, hp, hpe⟩ := Option.map_eq_some'.mp h
      injection hpe with ho hst
      subst ho
      cases i with
      | zero =>
        simp only [List.get?] at hi
        cases hi
        simp [hok]
      | succ i =>
        simp only [List.get?] at hi ⊢
        have := ih _ _ _ hp i r hi
        rw [this]
        by_cases hc : r.result = RResult.Ok
        · rw [List.take_succ_cons, okSize_cons]
          have hsz : okContrib rec = 0 := by simp [okContrib, hok]
          rw [hsz]
          simp
        · simp [hc]

/-- The eviction loop returns exactly one record per input record. -/
theorem budgetLoop_length (lookup : String → Option RRec) (isSas : Bool)
    (records : List ORec) :
    ∀ (st : BState) (out : List ORec) (st2 : BState),
      budgetLoop lookup isSas st records = some (out, st2) →
      out.length = records.length := by
  induction records with
  | nil =>
    intro st out st2 h
    rw [budgetLoop] at h
    injection h with h1
    injection h1 with h2
    rw [← h2]
  | cons rec rest ih =>
    intro st out st2 h
    rw [budgetLoop] at h
    by_cases hok : rec.result = RResult.Ok
    · simp only [hok, ne_eq, not_true_eq_false, if_false] at h
      cases hd : rec.data with
      | none => rw [hd] at h; simp at h
      | some d =>
        rw [hd] at h
        simp only at h
        by_cases hover :
            st.projectedSize + (d.length + rec.recordId.length) > 6000000
        · rw [if_pos hover] at h
          cases hlk : lookup rec.recordId with
          | none => rw [hlk] at h; simp at h
          | some rr =>
            rw [hlk] at h
            simp only at h
            obtain ⟨p, hp, hpe⟩ := Option.map_eq_some'.mp h
            injection hpe with ho hst
            subst ho
            simpa using ih _ _ _ hp
        · rw [if_neg hover] at h
          obtain ⟨p, hp, hpe⟩ := Option.map_eq_some'.mp h
          injection hpe with ho hst
          subst ho
          simpa using ih _ _ _ hp
    · simp only [ne_eq, hok, not_false_eq_true, if_true] at h
      obtain ⟨p, hp, hpe⟩ := Option.map_eq_some'.mp h
      injection hpe with ho hst
      subst ho
      simpa using ih _ _ _ hp

/-- The sizes charged for the records still `Ok` after the pass never
leave the running total above the ceiling (from a start below it). -/
theorem budgetLoop_okSize_le (lookup : String → Option RRec) (isSas : Bool)
    (records : List ORec) :
    ∀ (st : BState) (out : List ORec) (st2 : BState),
      budgetLoop lookup isSas st records = some (out, st2) →
      st.projectedSize + okSize out ≤ max st.projectedSize 6000000 := by
  induction records with
  | nil =>
    intro st out st2 h
    rw [budgetLoop] at h
    injection h with h1
    injection h1 with h2
    rw [← h2]
    simp [okSize]
  | cons rec rest ih =>
    intro st out st2 h
    rw [budgetLoop] at h
    by_cases hok : rec.result = RResult.Ok
    · simp only [hok, ne_eq, not_true_eq_false, if_false] at h
      cases hd : rec.data with
      | none => rw [hd] at h; simp at h
      | some d =>
        rw [hd] at h
        simp only at h
        by_cases hover :
            st.projectedSize + (d.length + rec.recordId.length) > 6000000
        · rw [if_pos hover] at h
          cases hlk : lookup rec.recordId with
          | none => rw [hlk] at h; simp at h
          | some rr =>
            rw [hlk] at h
            simp only at h
            obtain ⟨p, hp, hpe⟩ := Option.map_eq_some'.mp h
            injection hpe with ho hst
            subst ho
            have hih := ih _ _ _ hp
            rw [flushCheck_projectedSize] at hih
            simp only at hih
            rw [okSize_cons]
            have hz : okContrib ⟨rec.recordId, RResult.Dropped, none⟩ = 0 := by
              simp [okContrib]
            rw [hz]
            omega
        · rw [if_neg hover] at h
          obtain ⟨p, hp, hpe⟩ := Option.map_eq_some'.mp h
          injection hpe with ho hst
          subst ho
          have hih := ih _ _ _ hp
          rw [flushCheck_projectedSize] at hih
          simp only at hih
          rw [okSize_cons]
          have hz : okContrib rec = d.length + rec.recordId.length := by
            simp [okContrib, hok, hd]
          rw [hz]
          omega
    · simp only [ne_eq, hok, not_false_eq_true, if_true] at h
      obtain ⟨p, hp, hpe⟩ := Option.map_eq_some'.mp h
      injection hpe with ho hst
      subst ho
      have hih := ih _ _ _ hp
      rw [okSize_cons]
      have hz : okContrib rec = 0 := by simp [okContrib, hok]
      rw [hz]
      omega

/-- The final loop state: the accumulator charges every `Ok`-entering
record, the candidate counter counts the evictions, and the open group
plus finished groups are exactly the 500-chunking of the candidate
stream. -/
theorem budgetLoop_state (lookup : String → Option RRec) (isSas : Bool)
    (records : List ORec) :
    ∀ (st : BState) (out : List ORec) (st2 : BState),
      budgetLoop lookup isSas st records = some (out, st2) →
      st.recordsToReingest.length < 500 →
      st2.projectedSize = st.projectedSize + okSize records ∧
      st2.total = st.total +
        (evictedCands lookup isSas st.projectedSize records).length ∧
      (st2.recordsToReingest, st2.putRecordBatches) =
        chunkAcc st.recordsToReingest st.putRecordBatches
          (evictedCands lookup isSas st.projectedSize records) := by
  induction records with
  | nil =>
    intro st out st2 h h500
    rw [budgetLoop] at h
    injection h with h1
    injection h1 with h2 h3
    rw [← h3]
    simp [okSize, evictedCands, chunkAcc]
  | cons rec rest ih =>
    intro st out st2 h h500
    rw [budgetLoop] at h
    by_cases hok : rec.result = RResult.Ok
    · simp only [hok, ne_eq, not_true_eq_false, if_false] at h
      cases hd : rec.data with
      | none => rw [hd] at h; simp at h
      | some d =>
        rw [hd] at h
        simp only at h
        by_cases hover :
            st.projectedSize + (d.length + rec.recordId.length) > 6000000
        · rw [if_pos hover] at h
          cases hlk : lookup rec.recordId with
          | none => rw [hlk] at h; simp at h
          | some rr =>
            rw [hlk] at h
            simp only at h
            obtain ⟨p, hp, hpe⟩ := Option.map_eq_some'.mp h
            injection hpe with ho hst
            subst hst
            have hcand : evictedCands lookup isSas st.projectedSize (rec :: rest)
                = getReingestionRecord isSas rr ::
                  evictedCands lookup isSas
                    (st.projectedSize + (d.length + rec.recordId.length)) rest := by
              simp only [evictedCands, hok, hd, hlk, Option.getD_some, if_true]
              rw [if_pos (by omega)]
            by_cases hfull :
                (st.recordsToReingest ++ [getReingestionRecord isSas rr]).length = 500
            · have hst1 : flushCheck ⟨st.projectedSize + (d.length + rec.recordId.length),
                  st.recordsToReingest ++ [getReingestionRecord isSas rr],
                  st.putRecordBatches, st.total + 1⟩
                  = ⟨st.projectedSize + (d.length + rec.recordId.length), [],
                    st.putRecordBatches ++
                      [st.recordsToReingest ++ [getReingestionRecord isSas rr]],
                    st.total + 1⟩ := by
                unfold flushCheck
                rw [if_pos hfull]
              rw [hst1] at hp
              have hih := ih _ _ _ hp (by simp)
              dsimp only at hih
              rw [hcand]
              have hz : okContrib rec = d.length + rec.recordId.length := by
                simp [okContrib, hok, hd]
              refine ⟨?_, ?_, ?_⟩
              · rw [hih.1, okSize_cons, hz]
                omega
              · rw [hih.2.1]
                simp only [List.length_cons]
                omega
              · rw [hih.2.2, chunkAcc]
                simp only [hfull, if_true]
            · have hst1 : flushCheck ⟨st.projectedSize + (d.length + rec.recordId.length),
                  st.recordsToReingest ++ [getReingestionRecord isSas rr],
                  st.putRecordBatches, st.total + 1⟩
                  = ⟨st.projectedSize + (d.length + rec.recordId.length),
                    st.recordsToReingest ++ [getReingestionRecord isSas rr],
                    st.putRecordBatches, st.total + 1⟩ := by
                unfold flushCheck
                rw [if_neg hfull]
              rw [hst1] at hp
              have hlen :
                  (st.recordsToReingest ++ [getReingestionRecord isSas rr]).length < 500 := by
                simp at hfull ⊢
                omega
              have hih := ih _ _ _ hp hlen
              dsimp only at hih
              rw [hcand]
              have hz : okContrib rec = d.length + rec.recordId.length := by
                simp [okContrib, hok, hd]
              refine ⟨?_, ?_, ?_⟩
              · rw [hih.1, okSize_cons, hz]
                omega
              · rw [hih.2.1]
                simp only [List.length_cons]
                omega
              · rw [hih.2.2, chunkAcc]
                simp only [hfull, if_false]
        · rw [if_neg hover] at h
          obtain ⟨p, hp, hpe⟩ := Option.map_eq_some'.mp h
          injection hpe with ho hst
          subst hst
          have hcand : evictedCands lookup isSas st.projectedSize (rec :: rest)
              = evictedCands lookup isSas
                  (st.projectedSize + (d.length + rec.recordId.length)) rest := by
            simp only [evictedCands, hok, hd, Option.getD_some, if_true]
            rw [if_neg (by omega)]
          have hst1 : flushCheck ⟨st.projectedSize + (d.length + rec.recordId.length),
              st.recordsToReingest, st.putRecordBatches, st.total⟩
              = ⟨st.projectedSize + (d.length + rec.recordId.length),
                st.recordsToReingest, st.putRecordBatches, st.total⟩ := by
            simp only [flushCheck]
            rw [if_neg (by omega)]
          rw [hst1] at hp
          have hih := ih _ _ _ hp h500
          dsimp only at hih
          rw [hcand]
          have hz : okContrib rec = d.length + rec.recordId.length := by
            simp [okContrib, hok, hd]
          refine ⟨?_, ?_, ?_⟩
          · rw [hih.1, okSize_cons, hz]
            omega
          · exact hih.2.1
          · exact hih.2.2
    · simp only [ne_eq, hok, not_false_eq_true, if_true] at h
      obtain ⟨p, hp, hpe⟩ := Option.map_eq_some'.mp h
      injection hpe with ho hst
      subst hst
      have hcand : evictedCands lookup isSas st.projectedSize (rec :: rest)
          = evictedCands lookup isSas st.projectedSize rest := by
        simp only [evictedCands, hok, if_false]
      have hih := ih _ _ _ hp h500
      rw [hcand]
      have hz : okContrib rec = 0 := by simp [okContrib, hok]
      refine ⟨?_, ?_, ?_⟩
      · rw [hih.1, okSize_cons, hz]
        omega
      · exact hih.2.1
      · exact hih.2.2


/-! ### processRecords lemmas -/

/-- `processRecords` never changes a record's id. -/
theorem processOne_recordId (parse : Bytes → Option Envelope)
    (transform : Envelope → Nat → LogEvent → String) (r : InputRecord) (o : ORec)
    (h : processOne parse transform r = some o) : o.recordId = r.recordId := by
  unfold processOne at h
  dsimp only at h
  repeat' split at h
  all_goals try exact Option.noConfusion h
  all_goals injection h with h1
  all_goals rw [← h1]

/-- Pointwise refinement of the batch processor: a successful run maps the
`i`-th input through `processOne`. -/
theorem processRecords_get (parse : Bytes → Option Envelope)
    (transform : Envelope → Nat → LogEvent → String) (inputs : List InputRecord) :
    ∀ (out : List ORec), processRecords parse transform inputs = some out →
      ∀ (i : Nat) (r : InputRecord), inputs.get? i = some r →
        ∃ o, processOne parse transform r = some o ∧ out.get? i = some o := by
  induction inputs with
  | nil => intro out h i r hi; simp at hi
  | cons x xs ih =>
    intro out h i r hi
    rw [processRecords] at h
    simp only [bind, Option.bind_eq_some, pure] at h
    obtain ⟨o, ho, os, hos, hcons⟩ := h
    injection hcons with hcons
    subst hcons
    cases i with
    | zero =>
      simp only [List.get?] at hi
      cases hi
      exact ⟨o, ho, rfl⟩
    | succ i =>
      simp only [List.get?] at hi ⊢
      exact ih os hos i r hi

/-- A successful run yields exactly one output per input. -/
theorem processRecords_length (parse : Bytes → Option Envelope)
    (transform : Envelope → Nat → LogEvent → String) (inputs : List InputRecord) :
    ∀ (out : List ORec), processRecords parse transform inputs = some out →
      out.length = inputs.length := by
  induction inputs with
  | nil =>
    intro out h
    rw [processRecords] at h
    injection h with h1
    subst h1
    rfl
  | cons x xs ih =>
    intro out h
    rw [processRecords] at h
    simp only [bind, Option.bind_eq_some, pure] at h
    obtain ⟨o, ho, os, hos, hcons⟩ := h
    injection hcons with hcons
    subst hcons
    simpa using ih os hos

/-- If the per-record stage raises on any record of the batch, the whole
batch processing raises: no output list is produced at all. -/
theorem processRecords_none (parse : Bytes → Option Envelope)
    (transform : Envelope → Nat → LogEvent → String) (inputs : List InputRecord)
    (r : InputRecord) (hr : r ∈ inputs)
    (hfail : processOne parse transform r = none) :
    processRecords parse transform inputs = none := by
  induction inputs with
  | nil => cases hr
  | cons x xs ih =>
    rw [processRecords]
    rcases List.mem_cons.mp hr with hr | hr
    · subst hr
      rw [hfail]
      rfl
    · cases hx : processOne parse transform x with
      | none => rfl
      | some o =>
        simp only [bind, Option.some_bind]
        rw [ih hr]
        rfl

/-- A raised decompression/parse error is exactly a `none` from the
composite decode step. -/
theorem processOne_none_of_decode_fail (parse : Bytes → Option Envelope)
    (transform : Envelope → Nat → LogEvent → String) (r : InputRecord)
    (hfail : (b64decode r.data).bind parse = none) :
    processOne parse transform r = none := by
  unfold processOne
  cases hb : b64decode r.data with
  | none => rfl
  | some raw =>
    rw [hb] at hfail
    simp only [Option.some_bind] at hfail
    dsimp only
    rw [hfail]

/-! ### dataByRecordId lemmas -/

theorem createReingestionRecord_data (isSas : Bool) (r : InputRecord) (rr : RRec)
    (h : createReingestionRecord isSas r = some rr) :
    some rr.data = b64decode r.data := by
  unfold createReingestionRecord at h
  repeat' split at h
  all_goals try exact Option.noConfusion h
  all_goals injection h with h1
  all_goals rw [← h1]
  all_goals simp_all

/-- Keys outside the remaining inputs keep their binding while the
`dataByRecordId` dict is being built. -/
theorem buildDB_get_notmem (isSas : Bool) (inputs : List InputRecord) :
    ∀ (db0 db : List (String × RRec)), buildDB isSas inputs db0 = some db →
      ∀ k, k ∉ inputs.map InputRecord.recordId → assocGet db k = assocGet db0 k := by
  induction inputs with
  | nil =>
    intro db0 db h k hk
    rw [buildDB] at h
    injection h with h1
    rw [h1]
  | cons x xs ih =>
    intro db0 db h k hk
    rw [buildDB] at h
    cases hc : createReingestionRecord isSas x with
    | none => rw [hc] at h; exact Option.noConfusion h
    | some rr =>
      rw [hc] at h
      simp only [List.map_cons, List.mem_cons, not_or] at hk
      rw [ih _ _ h k hk.2]
      exact assocGet_set_ne _ _ _ _ (fun he => hk.1 he.symm)

/-- With unique record ids, `dataByRecordId` maps each input's id to its
`createReingestionRecord`. -/
theorem buildDB_get (isSas : Bool) (inputs : List InputRecord) :
    ∀ (db0 db : List (String × RRec)), buildDB isSas inputs db0 = some db →
      (inputs.map InputRecord.recordId).Nodup →
      ∀ r ∈ inputs, ∃ rr, createReingestionRecord isSas r = some rr ∧
        assocGet db r.recordId = some rr := by
  induction inputs with
  | nil => intro db0 db h hnd r hr; cases hr
  | cons x xs ih =>
    intro db0 db h hnd r hr
    rw [buildDB] at h
    cases hc : createReingestionRecord isSas x with
    | none => rw [hc] at h; exact Option.noConfusion h
    | some rr =>
      rw [hc] at h
      simp only [List.map_cons, List.nodup_cons] at hnd
      rcases List.mem_cons.mp hr with hr | hr
      · subst hr
        refine ⟨rr, hc, ?_⟩
        rw [buildDB_get_notmem isSas xs _ _ h _ hnd.1]
        exact assocGet_set_self _ _ _
      · exact ih _ _ h hnd.2 r hr

/-! ### chunkAcc lemmas -/

theorem chunkAcc_cur_lt {α : Type} (l : List α) :
    ∀ (cur : List α) (batches : List (List α)), cur.length < 500 →
      (chunkAcc cur batches l).1.length < 500 := by
  induction l with
  | nil => intro cur batches h; simpa [chunkAcc] using h
  | cons x xs ih =>
    intro cur batches h
    rw [chunkAcc]
    by_cases hfull : (cur ++ [x]).length = 500
    · simp only [hfull, if_true]
      exact ih _ _ (by simp)
    · simp only [hfull, if_false]
      refine ih _ _ ?_
      simp at hfull ⊢
      omega

theorem chunkAcc_batches_full {α : Type} (l : List α) :
    ∀ (cur : List α) (batches : List (List α)), cur.length < 500 →
      (∀ b ∈ batches, b.length = 500) →
      ∀ b ∈ (chunkAcc cur batches l).2, b.length = 500 := by
  induction l with
  | nil => intro cur batches h hb; simpa [chunkAcc] using hb
  | cons x xs ih =>
    intro cur batches h hb
    rw [chunkAcc]
    by_cases hfull : (cur ++ [x]).length = 500
    · simp only [hfull, if_true]
      refine ih _ _ (by simp) ?_
      intro b hbm
      rcases List.mem_append.mp hbm with hbm | hbm
      · exact hb b hbm
      · rw [List.mem_singleton.mp hbm]
        exact hfull
    · simp only [hfull, if_false]
      refine ih _ _ ?_ hb
      simp at hfull ⊢
      omega

theorem chunkAcc_flatten {α : Type} (l : List α) :
    ∀ (cur : List α) (batches : List (List α)),
      (chunkAcc cur batches l).2.flatten ++ (chunkAcc cur batches l).1
        = batches.flatten ++ cur ++ l := by
  induction l with
  | nil => intro cur batches; simp [chunkAcc]
  | cons x xs ih =>
    intro cur batches
    rw [chunkAcc]
    by_cases hfull : (cur ++ [x]).length = 500
    · simp only [hfull, if_true]
      rw [ih]
      simp
    · simp only [hfull, if_false]
      rw [ih]
      simp

/-! ### Claim theorems -/

/-- C1: in the size-budget pass, once the running total of
`len(data) + len(recordId)` accumulated over `Ok` records first exceeds
6,000,000 at record `k`, every `Ok` record from `k` to the end is
rewritten to `Dropped` with its data removed, every `Ok` record before
`k` is kept intact, and the total size charged for the records still `Ok`
in the output is at most 6,000,000. -/
theorem claim_C1_budget_eviction (lookup : String → Option RRec) (isSas : Bool)
    (records out : List ORec) (st2 : BState) (k : Nat) (rk : ORec)
    (hrun : budgetLoop lookup isSas ⟨0, [], [], 0⟩ records = some (out, st2))
    (hk : records.get? k = some rk)
    (hkOk : rk.result = RResult.Ok)
    (hcross : okSize (records.take (k + 1)) > 6000000)
    (hbefore : okSize (records.take k) ≤ 6000000) :
    (∀ (i : Nat) (r : ORec), records.get? i = some r → r.result = RResult.Ok →
      (k ≤ i → out.get? i = some ⟨r.recordId, RResult.Dropped, none⟩) ∧
      (i < k → out.get? i = some r)) ∧
    okSize out ≤ 6000000 := by
  constructor
  · intro i r hi hrOk
    have hget := budgetLoop_get lookup isSas records _ _ _ hrun i r hi
    dsimp only at hget
    simp only [Nat.zero_add] at hget
    constructor
    · intro hik
      have hmono := okSize_take_mono records (show k + 1 ≤ i + 1 by omega)
      have hcond : r.result = RResult.Ok ∧
          okSize (records.take (i + 1)) > 6000000 := ⟨hrOk, by omega⟩
      rw [if_pos hcond] at hget
      exact hget
    · intro hik
      have hmono := okSize_take_mono records (show i + 1 ≤ k by omega)
      have hcond : ¬ (r.result = RResult.Ok ∧
          okSize (records.take (i + 1)) > 6000000) := by
        rintro ⟨-, habs⟩
        omega
      rw [if_neg hcond] at hget
      exact hget
  · have := budgetLoop_okSize_le lookup isSas records _ _ _ hrun
    dsimp only at this
    omega

/-- Witness for C1: a two-record batch whose second `Ok` record pushes the
running total past the ceiling is returned with the first record intact
and the second dropped, and the surviving `Ok` size is under the ceiling. -/
theorem claim_C1_witness :
    (budgetLoop (fun _ => some ⟨[9], none⟩) false ⟨0, [], [], 0⟩
        [⟨"a", RResult.Ok, some [1, 2, 3]⟩,
         ⟨"b", RResult.Ok, some (List.replicate 6000000 0)⟩]
      = some ([⟨"a", RResult.Ok, some [1, 2, 3]⟩, ⟨"b", RResult.Dropped, none⟩],
          ⟨6000005, [⟨[9], none⟩], [], 1⟩)) ∧
    okSize (([⟨"a", RResult.Ok, some [1, 2, 3]⟩,
      ⟨"b", RResult.Ok, some (List.replicate 6000000 0)⟩] : List ORec).take 2) > 6000000 ∧
    ([⟨"a", RResult.Ok, some [1, 2, 3]⟩, ⟨"b", RResult.Dropped, none⟩] : List ORec).get? 1
      = some ⟨"b", RResult.Dropped, none⟩ ∧
    ([⟨"a", RResult.Ok, some [1, 2, 3]⟩, ⟨"b", RResult.Dropped, none⟩] : List ORec).get? 0
      = some ⟨"a", RResult.Ok, some [1, 2, 3]⟩ ∧
    okSize [⟨"a", RResult.Ok, some [1, 2, 3]⟩, ⟨"b", RResult.Dropped, none⟩] ≤ 6000000 := by
  have key : ∀ (bs : Bytes), bs.length = 6000000 →
      budgetLoop (fun _ => some ⟨[9], none⟩) false ⟨0, [], [], 0⟩
          [⟨"a", RResult.Ok, some [1, 2, 3]⟩, ⟨"b", RResult.Ok, some bs⟩]
        = some ([⟨"a", RResult.Ok, some [1, 2, 3]⟩, ⟨"b", RResult.Dropped, none⟩],
            ⟨6000005, [⟨[9], none⟩], [], 1⟩) := by
    intro bs hbs
    have ha : ("a" : String).length = 1 := rfl
    have hb : ("b" : String).length = 1 := rfl
    simp [budgetLoop, flushCheck, getReingestionRecord, hbs, ha, hb]
  have hcrossKey : ∀ (bs : Bytes), bs.length = 6000000 →
      okSize (([⟨"a", RResult.Ok, some [1, 2, 3]⟩,
        (⟨"b", RResult.Ok, some bs⟩ : ORec)]).take 2) > 6000000 := by
    intro bs hbs
    have hb : ("b" : String).length = 1 := rfl
    simp [okSize, okContrib, hbs, hb]
  have hbeforeKey : ∀ (bs : Bytes),
      okSize (([⟨"a", RResult.Ok, some [1, 2, 3]⟩,
        (⟨"b", RResult.Ok, some bs⟩ : ORec)]).take 1) ≤ 6000000 := by
    intro bs
    have ha : ("a" : String).length = 1 := rfl
    simp [okSize, okContrib, ha]
  have hrun := key (List.replicate 6000000 0) (List.length_replicate 6000000 0)
  have hcross := hcrossKey (List.replicate 6000000 0) (List.length_replicate 6000000 0)
  have happ := claim_C1_budget_eviction (fun _ => some ⟨[9], none⟩) false
    _ _ _ 1 ⟨"b", RResult.Ok, some (List.replicate 6000000 0)⟩ hrun rfl rfl
    hcross (hbeforeKey (List.replicate 6000000 0))
  refine ⟨hrun, hcross, ?_, ?_, happ.2⟩
  · exact (happ.1 1 _ rfl rfl).1 (le_refl 1)
  · exact (happ.1 0 _ rfl rfl).2 (by omega)

/-- C9: the size-budget pass only ever changes the `result` and `data`
fields of the records it evicts: every record keeps its `recordId`, a
record that enters with a non-`Ok` result passes through entirely
unchanged, and the final running total charges only the records that
entered as `Ok`. -/
theorem claim_C9_frame (lookup : String → Option RRec) (isSas : Bool)
    (records out : List ORec) (st2 : BState)
    (hrun : budgetLoop lookup isSas ⟨0, [], [], 0⟩ records = some (out, st2)) :
    out.length = records.length ∧
    (∀ (i : Nat) (r : ORec), records.get? i = some r →
      ∃ r2, out.get? i = some r2 ∧ r2.recordId = r.recordId) ∧
    (∀ (i : Nat) (r : ORec), records.get? i = some r →
      r.result ≠ RResult.Ok → out.get? i = some r) ∧
    st2.projectedSize = okSize records := by
  refine ⟨budgetLoop_length lookup isSas records _ _ _ hrun, ?_, ?_, ?_⟩
  · intro i r hi
    have hget := budgetLoop_get lookup isSas records _ _ _ hrun i r hi
    by_cases hc : r.result = RResult.Ok ∧
        (⟨0, [], [], 0⟩ : BState).projectedSize +
          okSize (records.take (i + 1)) > 6000000
    · rw [if_pos hc] at hget
      exact ⟨_, hget, rfl⟩
    · rw [if_neg hc] at hget
      exact ⟨_, hget, rfl⟩
  · intro i r hi hr
    have hget := budgetLoop_get lookup isSas records _ _ _ hrun i r hi
    rw [if_neg (by rintro ⟨habs, -⟩; exact hr habs)] at hget
    exact hget
  · have := (budgetLoop_state lookup isSas records _ _ _ hrun (by simp)).1
    dsimp only at this
    simpa using this

/-- Witness for C9: a batch with a non-`Ok` record and an `Ok` record
passes through with ids intact, the non-`Ok` record unchanged, and the
final total charging only the `Ok` record. -/
theorem claim_C9_witness :
    (budgetLoop (fun _ => some ⟨[9], none⟩) false ⟨0, [], [], 0⟩
        [⟨"a", RResult.Dropped, none⟩, ⟨"b", RResult.Ok, some [5]⟩]
      = some ([⟨"a", RResult.Dropped, none⟩, ⟨"b", RResult.Ok, some [5]⟩],
          ⟨2, [], [], 0⟩)) ∧
    ([⟨"a", RResult.Dropped, none⟩, ⟨"b", RResult.Ok, some [5]⟩] : List ORec).length = 2 ∧
    (2 : Nat) = okSize [⟨"a", RResult.Dropped, none⟩, ⟨"b", RResult.Ok, some [5]⟩] := by
  have hrun : budgetLoop (fun _ => some ⟨[9], none⟩) false ⟨0, [], [], 0⟩
      [⟨"a", RResult.Dropped, none⟩, ⟨"b", RResult.Ok, some [5]⟩]
      = some ([⟨"a", RResult.Dropped, none⟩, ⟨"b", RResult.Ok, some [5]⟩],
          ⟨2, [], [], 0⟩) := by
    have hb : ("b" : String).length = 1 := rfl
    simp [budgetLoop, flushCheck, hb]
  refine ⟨hrun, ?_, ?_⟩
  · exact (claim_C9_frame (fun _ => some ⟨[9], none⟩) false _ _ _ hrun).1
  · exact ((claim_C9_frame (fun _ => some ⟨[9], none⟩) false _ _ _ hrun).2.2.2).symm

/-- C5: a `DATA_MESSAGE` record is classified by the base64-encoded size
of its concatenated transformed fragments: over 6,000,000 bytes it
becomes `ProcessingFailed` with no data (never `Dropped`), otherwise `Ok`
with the encoded data attached. -/
theorem claim_C5_size_decision (parse : Bytes → Option Envelope)
    (transform : Envelope → Nat → LogEvent → String) (r : InputRecord)
    (raw : Bytes) (env : Envelope)
    (hb : b64decode r.data = some raw)
    (hp : parse raw = some env)
    (hdm : env.messageType = "DATA_MESSAGE") :
    (6000000 < (b64encode (strBytes (String.join
        ((env.logEvents.enum).map (fun p => transform env p.1 p.2))))).length →
      processOne parse transform r
        = some ⟨r.recordId, RResult.ProcessingFailed, none⟩) ∧
    ((b64encode (strBytes (String.join
        ((env.logEvents.enum).map (fun p => transform env p.1 p.2))))).length ≤ 6000000 →
      processOne parse transform r = some ⟨r.recordId, RResult.Ok,
        some (b64encode (strBytes (String.join
          ((env.logEvents.enum).map (fun p => transform env p.1 p.2)))))⟩) := by
  unfold processOne
  rw [hb]
  dsimp only
  rw [hp]
  dsimp only
  rw [hdm]
  rw [if_neg (by decide), if_pos rfl]
  constructor
  · intro hbig
    rw [if_neg (by omega)]
  · intro hsmall
    rw [if_pos hsmall]

/-- Witness for C5: an empty `DATA_MESSAGE` record encodes to 0 bytes and
is returned `Ok` with the (empty) encoded data attached. -/
theorem claim_C5_witness :
    b64decode ([] : Bytes) = some [] ∧
    (fun (_ : Bytes) =>
        some (⟨"DATA_MESSAGE", "own", "grp", "strm", []⟩ : Envelope)) []
      = some ⟨"DATA_MESSAGE", "own", "grp", "strm", []⟩ ∧
    processOne (fun _ => some ⟨"DATA_MESSAGE", "own", "grp", "strm", []⟩)
        (fun _ _ _ => "") ⟨"rid", [], none⟩
      = some ⟨"rid", RResult.Ok, some (b64encode (strBytes (String.join
          (((⟨"DATA_MESSAGE", "own", "grp", "strm", []⟩ : Envelope).logEvents.enum).map
            (fun p => (fun _ _ _ => "") (⟨"DATA_MESSAGE", "own", "grp", "strm",
              []⟩ : Envelope) p.1 p.2)))))⟩ := by
  refine ⟨rfl, rfl, ?_⟩
  exact (claim_C5_size_decision (fun _ => some ⟨"DATA_MESSAGE", "own", "grp", "strm", []⟩)
    (fun _ _ _ => "") ⟨"rid", [], none⟩ [] _ rfl rfl rfl).2 (by decide)

/-- C2 as stated is false: the per-record stage has no exception handler
around the decode step, so a payload that fails to decompress/parse
raises and aborts the whole batch — no `ProcessingFailed` record is
yielded for it, and the remaining records are never processed.  Here the
first record's payload parses to nothing while the second is perfectly
processable, yet the batch yields no output at all. -/
theorem claim_C2_counterexample :
    processRecords (fun raw => if raw = [] then
        some ⟨"CONTROL_MESSAGE", "own", "grp", "strm", []⟩ else none)
      (fun _ _ _ => "")
      [⟨"bad", [65, 65, 65, 65], none⟩, ⟨"good", [], none⟩] = none ∧
    processOne (fun raw => if raw = [] then
        some ⟨"CONTROL_MESSAGE", "own", "grp", "strm", []⟩ else none)
      (fun _ _ _ => "") ⟨"good", [], none⟩
      = some ⟨"good", RResult.Dropped, none⟩ := by
  constructor
  · rfl
  · rfl

/-- C2 amended: a payload whose decode (base64 + gunzip + JSON parse)
fails makes the whole invocation raise — `processRecords` yields no
output list at all — while a record that decodes to an unrecognized
`messageType` is classified `ProcessingFailed` in place without
disturbing the other records. -/
theorem claim_C2_amended (parse : Bytes → Option Envelope)
    (transform : Envelope → Nat → LogEvent → String) :
    (∀ (inputs : List InputRecord) (r : InputRecord), r ∈ inputs →
      (b64decode r.data).bind parse = none →
      processRecords parse transform inputs = none) ∧
    (∀ (inputs : List InputRecord) (out : List ORec) (i : Nat)
        (r : InputRecord) (raw : Bytes) (env : Envelope),
      processRecords parse transform inputs = some out →
      inputs.get? i = some r →
      b64decode r.data = some raw → parse raw = some env →
      env.messageType ≠ "CONTROL_MESSAGE" → env.messageType ≠ "DATA_MESSAGE" →
      out.get? i = some ⟨r.recordId, RResult.ProcessingFailed, none⟩) := by
  constructor
  · intro inputs r hr hfail
    exact processRecords_none parse transform inputs r hr
      (processOne_none_of_decode_fail parse transform r hfail)
  · intro inputs out i r raw env hrun hi hb hp hc hdm
    obtain ⟨o, ho, hout⟩ := processRecords_get parse transform inputs out hrun i r hi
    unfold processOne at ho
    rw [hb] at ho
    dsimp only at ho
    rw [hp] at ho
    dsimp only at ho
    rw [if_neg hc, if_neg hdm] at ho
    injection ho with h1
    rw [← h1] at hout
    exact hout

/-- Witness for C2 (amended): a batch whose only record's payload fails
to parse produces no output, and a batch whose only record has an
unknown message type yields `ProcessingFailed` at its index. -/
theorem claim_C2_witness :
    processRecords (fun _ => (none : Option Envelope)) (fun _ _ _ => "")
      [⟨"x", [], none⟩] = none ∧
    ([⟨"x", RResult.ProcessingFailed, none⟩] : List ORec).get? 0
      = some ⟨"x", RResult.ProcessingFailed, none⟩ := by
  constructor
  · exact (claim_C2_amended (fun _ => none) (fun _ _ _ => "")).1
      [⟨"x", [], none⟩] ⟨"x", [], none⟩ (by simp) rfl
  · exact (claim_C2_amended (fun _ => some ⟨"WEIRD", "o", "g", "s", []⟩)
      (fun _ _ _ => "")).2 [⟨"x", [], none⟩] [⟨"x", RResult.ProcessingFailed, none⟩]
      0 ⟨"x", [], none⟩ [] ⟨"WEIRD", "o", "g", "s", []⟩
      rfl rfl rfl rfl (by decide) (by decide)

/-- C8: for either stream writer, a failing submission (the call raised,
or the response scan collected records with non-empty error codes)
retries exactly the failed subset with `attemptsMade + 1` while
`attemptsMade + 1 < maxAttempts`, and at `attemptsMade = maxAttempts - 1`
it instead raises the fatal error reporting the attempt count and the
last error message (codes). -/
theorem claim_C8_retry (client : Nat → List PutEntry → ClientResult)
    (streamName : String) (records failed : List PutEntry) (errMsg : String)
    (attemptsMade maxAttempts : Nat)
    (hout : attemptOutcome records (client attemptsMade records)
      = some (failed, errMsg))
    (hne : failed ≠ []) :
    (attemptsMade + 1 < maxAttempts →
      putRecordsToFirehoseStream client streamName records attemptsMade maxAttempts
        = putRecordsToFirehoseStream client streamName failed (attemptsMade + 1)
            maxAttempts ∧
      putRecordsToKinesisStream client streamName records attemptsMade maxAttempts
        = putRecordsToKinesisStream client streamName failed (attemptsMade + 1)
            maxAttempts) ∧
    (attemptsMade = maxAttempts - 1 →
      putRecordsToFirehoseStream client streamName records attemptsMade maxAttempts
        = Except.error (exhaustedMsg maxAttempts errMsg) ∧
      putRecordsToKinesisStream client streamName records attemptsMade maxAttempts
        = Except.error (exhaustedMsg maxAttempts errMsg)) := by
  have hlen : failed.length > 0 := List.length_pos.mpr hne
  constructor
  · intro hlt
    constructor
    · rw [putRecordsToFirehoseStream, hout]
      dsimp only
      rw [if_pos hlen, dif_pos hlt]
    · rw [putRecordsToKinesisStream, hout]
      dsimp only
      rw [if_pos hlen, dif_pos hlt]
  · intro hlast
    constructor
    · rw [putRecordsToFirehoseStream, hout]
      dsimp only
      rw [if_pos hlen, dif_neg (by omega)]
    · rw [putRecordsToKinesisStream, hout]
      dsimp only
      rw [if_pos hlen, dif_neg (by omega)]

/-- Witness for C8: with a client that always raises, the 20th attempt
(attemptsMade = 19) fails fatally, and the first attempt retries the
(whole) failed group at attempt 1. -/
theorem claim_C8_witness :
    attemptOutcome [⟨[1], none⟩] (ClientResult.raises "boom")
      = some ([⟨[1], none⟩], "boom") ∧
    putRecordsToFirehoseStream (fun _ _ => ClientResult.raises "boom") "s"
        [⟨[1], none⟩] 19 20
      = Except.error (exhaustedMsg 20 "boom") ∧
    putRecordsToFirehoseStream (fun _ _ => ClientResult.raises "boom") "s"
        [⟨[1], none⟩] 0 20
      = putRecordsToFirehoseStream (fun _ _ => ClientResult.raises "boom") "s"
          [⟨[1], none⟩] 1 20 ∧
    putRecordsToKinesisStream (fun _ _ => ClientResult.raises "boom") "s"
        [⟨[1], none⟩] 19 20
      = Except.error (exhaustedMsg 20 "boom") := by
  refine ⟨rfl, ?_, ?_, ?_⟩
  · exact ((claim_C8_retry (fun _ _ => ClientResult.raises "boom") "s"
      [⟨[1], none⟩] [⟨[1], none⟩] "boom" 19 20 rfl (by simp)).2 (by omega)).1
  · exact ((claim_C8_retry (fun _ _ => ClientResult.raises "boom") "s"
      [⟨[1], none⟩] [⟨[1], none⟩] "boom" 0 20 rfl (by simp)).1 (by omega)).1
  · exact ((claim_C8_retry (fun _ _ => ClientResult.raises "boom") "s"
      [⟨[1], none⟩] [⟨[1], none⟩] "boom" 19 20 rfl (by simp)).2 (by omega)).2

/-! ### dict merge lemmas -/

theorem assocGet_eq_none_of_notmem {α : Type} (l : List (String × α)) (k : String)
    (h : k ∉ l.map Prod.fst) : assocGet l k = none := by
  induction l with
  | nil => rfl
  | cons hd tl ih =>
    simp only [List.map_cons, List.mem_cons, not_or] at h
    rw [assocGet.eq_def]
    simp only
    rw [if_neg (fun he => h.1 he.symm), ih h.2]

theorem assocGet_foldl_set_none {α : Type} (kvs : List (String × α)) :
    ∀ (d : List (String × α)) (k : String), assocGet kvs k = none →
      assocGet (kvs.foldl (fun acc p => assocSet acc p.1 p.2) d) k
        = assocGet d k := by
  induction kvs with
  | nil => intro d k h; rfl
  | cons hd tl ih =>
    intro d k h
    rw [assocGet.eq_def] at h
    simp only at h
    by_cases he : hd.1 = k
    · rw [if_pos he] at h; exact Option.noConfusion h
    · rw [if_neg he] at h
      rw [List.foldl_cons, ih _ k h, assocGet_set_ne _ _ _ _ he]

theorem assocGet_foldl_set_some {α : Type} (kvs : List (String × α)) :
    ∀ (d : List (String × α)) (k : String) (v : α),
      (kvs.map Prod.fst).Nodup → assocGet kvs k = some v →
      assocGet (kvs.foldl (fun acc p => assocSet acc p.1 p.2) d) k = some v := by
  induction kvs with
  | nil => intro d k v hnd h; exact Option.noConfusion h
  | cons hd tl ih =>
    intro d k v hnd h
    simp only [List.map_cons, List.nodup_cons] at hnd
    rw [assocGet.eq_def] at h
    simp only at h
    by_cases he : hd.1 = k
    · rw [if_pos he] at h
      injection h with h1
      subst h1
      rw [List.foldl_cons]
      have hnone : assocGet tl k = none :=
        assocGet_eq_none_of_notmem tl k (he ▸ hnd.1)
      rw [assocGet_foldl_set_none tl _ k hnone]
      rw [← he]
      exact assocGet_set_self _ _ _
    · rw [if_neg he] at h
      rw [List.foldl_cons]
      exact ih _ k v hnd.2 h

/-- C3 as stated is false: `es_source.update(message)` follows Python
dict-update semantics, so a message key that collides with a reserved
`@`-prefixed field overwrites it.  A log event whose message is the JSON
object assigning `"boom"` to `"@id"` ends with `@id = "boom"` in the
derived document instead of the event's own id `"orig-id"`. -/
theorem claim_C3_counterexample :
    (fun s => if s = "\x7b\"@id\": \"boom\"\x7d" then
        some (PyValue.obj [("@id", PyValue.str "boom")]) else none)
      (pyStrip (⟨"orig-id", 0, "\x7b\"@id\": \"boom\"\x7d"⟩ : LogEvent).message)
      = some (PyValue.obj [("@id", PyValue.str "boom")]) ∧
    assocGet (esSource (fun _ => "T")
        (fun s => if s = "\x7b\"@id\": \"boom\"\x7d" then
          some (PyValue.obj [("@id", PyValue.str "boom")]) else none)
        ⟨"DATA_MESSAGE", "own", "grp", "strm", []⟩
        ⟨"orig-id", 0, "\x7b\"@id\": \"boom\"\x7d"⟩) "@id"
      = some (PyValue.str "boom") ∧
    (⟨"orig-id", 0, "\x7b\"@id\": \"boom\"\x7d"⟩ : LogEvent).id = "orig-id" ∧
    ("boom" : String) ≠ "orig-id" := by
  exact ⟨rfl, rfl, rfl, by decide⟩

/-- C3 amended: message keys are merged with dict-update semantics — every
key of the parsed message object is present in the derived document with
its message value (so a message key *does* overwrite a same-named
reserved `@`-prefixed field), and every key the message does not mention
(reserved fields included) keeps its value from the pre-merge document. -/
theorem claim_C3_amended (iso : Int → String) (loads : String → Option PyValue)
    (env : Envelope) (ev : LogEvent) (kvs : List (String × PyValue))
    (hl : loads (pyStrip ev.message) = some (PyValue.obj kvs))
    (hnd : (kvs.map Prod.fst).Nodup) :
    (∀ (k : String) (v : PyValue), assocGet kvs k = some v →
      assocGet (esSource iso loads env ev) k = some v) ∧
    (∀ (k : String), assocGet kvs k = none →
      assocGet (esSource iso loads env ev) k
        = assocGet (reservedFields iso env ev) k) := by
  unfold esSource
  rw [hl]
  unfold dictUpdate
  constructor
  · intro k v hv
    exact assocGet_foldl_set_some kvs _ k v hnd hv
  · intro k hk
    exact assocGet_foldl_set_none kvs _ k hk

/-- Witness for C3 (amended): a message object with a colliding `@id` key
and a fresh `zz` key puts both message values in the document, while the
untouched reserved `@owner` field keeps its pre-merge value. -/
theorem claim_C3_witness :
    assocGet (esSource (fun _ => "T")
        (fun _ => some (PyValue.obj
          [("@id", PyValue.str "boom"), ("zz", PyValue.num 5)]))
        ⟨"DATA_MESSAGE", "own", "grp", "strm", []⟩
        ⟨"orig-id", 0, "m"⟩) "zz" = some (PyValue.num 5) ∧
    assocGet (esSource (fun _ => "T")
        (fun _ => some (PyValue.obj
          [("@id", PyValue.str "boom"), ("zz", PyValue.num 5)]))
        ⟨"DATA_MESSAGE", "own", "grp", "strm", []⟩
        ⟨"orig-id", 0, "m"⟩) "@owner"
      = assocGet (reservedFields (fun _ => "T")
          ⟨"DATA_MESSAGE", "own", "grp", "strm", []⟩
          ⟨"orig-id", 0, "m"⟩) "@owner" := by
  constructor
  · exact (claim_C3_amended (fun _ => "T")
      (fun _ => some (PyValue.obj [("@id", PyValue.str "boom"), ("zz", PyValue.num 5)]))
      ⟨"DATA_MESSAGE", "own", "grp", "strm", []⟩ ⟨"orig-id", 0, "m"⟩
      [("@id", PyValue.str "boom"), ("zz", PyValue.num 5)]
      rfl (by simp)).1 "zz" (PyValue.num 5) rfl
  · exact (claim_C3_amended (fun _ => "T")
      (fun _ => some (PyValue.obj [("@id", PyValue.str "boom"), ("zz", PyValue.num 5)]))
      ⟨"DATA_MESSAGE", "own", "grp", "strm", []⟩ ⟨"orig-id", 0, "m"⟩
      [("@id", PyValue.str "boom"), ("zz", PyValue.num 5)]
      rfl (by simp)).2 "@owner" rfl

/-- C10's merge-skipping half is false as stated: a message that parses
as JSON but is *not* a JSON object can still be merged — Python's
`dict.update` accepts a list of `[key, value]` pairs.  The message
`[["a", 1]]` parses to an array, yet the derived document gains the key
`"a"`, so it does not keep only the reserved fields. -/
theorem claim_C10_counterexample :
    (fun s => if s = "[[\"a\", 1]]" then
        some (PyValue.arr [PyValue.arr [PyValue.str "a", PyValue.num 1]]) else none)
      (pyStrip (⟨"id1", 0, "[[\"a\", 1]]"⟩ : LogEvent).message)
      = some (PyValue.arr [PyValue.arr [PyValue.str "a", PyValue.num 1]]) ∧
    assocGet (esSource (fun _ => "T")
        (fun s => if s = "[[\"a\", 1]]" then
          some (PyValue.arr [PyValue.arr [PyValue.str "a", PyValue.num 1]]) else none)
        ⟨"DATA_MESSAGE", "own", "grp", "strm", []⟩
        ⟨"id1", 0, "[[\"a\", 1]]"⟩) "a" = some (PyValue.num 1) ∧
    assocGet (reservedFields (fun _ => "T")
        ⟨"DATA_MESSAGE", "own", "grp", "strm", []⟩
        ⟨"id1", 0, "[[\"a\", 1]]"⟩) "a" = none := by
  exact ⟨rfl, rfl, rfl⟩

/-- C10 amended: the reserved `@message` field is always initialized to
the whitespace-stripped message, and when the stripped message fails
to parse, or parses to a scalar or string (a value `dict.update` raises
on), the merge is skipped and the document is exactly the reserved
fields — but an array of `[string, value]` pairs merges like an object
(see the counterexample). -/
theorem claim_C10_amended (iso : Int → String) (loads : String → Option PyValue)
    (env : Envelope) (ev : LogEvent)
    (h : loads (pyStrip ev.message) = none ∨
         loads (pyStrip ev.message) = some PyValue.null ∨
         (∃ b, loads (pyStrip ev.message) = some (PyValue.bool b)) ∨
         (∃ n, loads (pyStrip ev.message) = some (PyValue.num n)) ∨
         (∃ s, loads (pyStrip ev.message) = some (PyValue.str s))) :
    esSource iso loads env ev = reservedFields iso env ev ∧
    assocGet (esSource iso loads env ev) "@message"
      = some (PyValue.str (pyStrip ev.message)) := by
  have heq : esSource iso loads env ev = reservedFields iso env ev := by
    unfold esSource
    rcases h with h | h | ⟨b, h⟩ | ⟨n, h⟩ | ⟨s, h⟩ <;> rw [h] <;> rfl
  refine ⟨heq, ?_⟩
  rw [heq]
  simp [reservedFields, assocGet]

/-- Witness for C10 (amended): the message `"  5 "` is stripped to `"5"`
(not kept verbatim), parses to the number 5, and the merge is skipped:
the document is exactly the reserved fields with `@message = "5"`. -/
theorem claim_C10_witness :
    pyStrip "  5 " = "5" ∧
    esSource (fun _ => "T") (fun s => if s = "5" then some (PyValue.num 5) else none)
        ⟨"DATA_MESSAGE", "own", "grp", "strm", []⟩ ⟨"id1", 0, "  5 "⟩
      = reservedFields (fun _ => "T")
          ⟨"DATA_MESSAGE", "own", "grp", "strm", []⟩ ⟨"id1", 0, "  5 "⟩ ∧
    assocGet (esSource (fun _ => "T")
        (fun s => if s = "5" then some (PyValue.num 5) else none)
        ⟨"DATA_MESSAGE", "own", "grp", "strm", []⟩ ⟨"id1", 0, "  5 "⟩) "@message"
      = some (PyValue.str (pyStrip (⟨"id1", 0, "  5 "⟩ : LogEvent).message)) := by
  have happ := claim_C10_amended (fun _ => "T")
    (fun s => if s = "5" then some (PyValue.num 5) else none)
    ⟨"DATA_MESSAGE", "own", "grp", "strm", []⟩ ⟨"id1", 0, "  5 "⟩
    (Or.inr (Or.inr (Or.inr (Or.inl ⟨5, by rfl⟩))))
  exact ⟨rfl, happ.1, happ.2⟩

/-- Destructuring a successful handler run into its stages. -/
theorem lambdaHandlerCore_elim (parse : Bytes → Option Envelope)
    (transform : Envelope → Nat → LogEvent → String) (isSas : Bool)
    (inputs : List InputRecord) (out : List ORec)
    (batches : List (List PutEntry)) (tot : Nat)
    (h : lambdaHandlerCore parse transform isSas inputs = some (out, batches, tot)) :
    ∃ (records : List ORec) (db : List (String × RRec)) (st : BState),
      processRecords parse transform inputs = some records ∧
      buildDB isSas inputs [] = some db ∧
      budgetLoop (fun rid => assocGet db rid) isSas ⟨0, [], [], 0⟩ records
        = some (out, st) ∧
      batches = st.putRecordBatches ++
        (if st.recordsToReingest.isEmpty then [] else [st.recordsToReingest]) ∧
      tot = st.total := by
  unfold lambdaHandlerCore at h
  simp only [bind, Option.bind_eq_some] at h
  obtain ⟨records, hrec, h⟩ := h
  obtain ⟨db, hdb, h⟩ := h
  obtain ⟨p, hp, h⟩ := h
  obtain ⟨o2, st⟩ := p
  simp only [pure] at h
  injection h with h
  injection h with h1 h2
  injection h2 with h2 h3
  subst h1
  subst h2
  subst h3
  exact ⟨records, db, st, hrec, hdb, hp, rfl, rfl⟩

/-- C4: a successful invocation returns exactly one output record per
input record, in order, with the `i`-th output carrying the `i`-th
input's `recordId`. -/
theorem claim_C4_length_ids (parse : Bytes → Option Envelope)
    (transform : Envelope → Nat → LogEvent → String) (isSas : Bool)
    (inputs : List InputRecord) (out : List ORec)
    (batches : List (List PutEntry)) (tot : Nat)
    (hrun : lambdaHandlerCore parse transform isSas inputs
      = some (out, batches, tot)) :
    out.length = inputs.length ∧
    ∀ (i : Nat) (r : InputRecord), inputs.get? i = some r →
      ∃ o, out.get? i = some o ∧ o.recordId = r.recordId := by
  obtain ⟨records, db, st, hrec, hdb, hloop, hb, ht⟩ :=
    lambdaHandlerCore_elim parse transform isSas inputs out batches tot hrun
  constructor
  · rw [budgetLoop_length _ _ records _ _ _ hloop,
      processRecords_length _ _ _ _ hrec]
  · intro i r hi
    obtain ⟨o, ho, hmid⟩ := processRecords_get _ _ _ _ hrec i r hi
    have hrid := processOne_recordId _ _ _ _ ho
    have hget := budgetLoop_get _ _ records _ _ _ hloop i o hmid
    by_cases hc : o.result = RResult.Ok ∧
        (⟨0, [], [], 0⟩ : BState).projectedSize +
          okSize (records.take (i + 1)) > 6000000
    · rw [if_pos hc] at hget
      exact ⟨_, hget, hrid⟩
    · rw [if_neg hc] at hget
      exact ⟨_, hget, hrid⟩

/-- Witness for C4: a one-record control-message batch returns one record
with the same id. -/
theorem claim_C4_witness :
    (lambdaHandlerCore (fun raw => if raw = [] then
        some ⟨"CONTROL_MESSAGE", "o", "g", "s", []⟩ else none)
      (fun _ _ _ => "") false [⟨"r1", [], none⟩]
      = some ([⟨"r1", RResult.Dropped, none⟩], [], 0)) ∧
    ([⟨"r1", RResult.Dropped, none⟩] : List ORec).length
      = ([⟨"r1", [], none⟩] : List InputRecord).length ∧
    ∃ o, ([⟨"r1", RResult.Dropped, none⟩] : List ORec).get? 0 = some o ∧
      o.recordId = "r1" := by
  have hrun : lambdaHandlerCore (fun raw => if raw = [] then
      some ⟨"CONTROL_MESSAGE", "o", "g", "s", []⟩ else none)
      (fun _ _ _ => "") false [⟨"r1", [], none⟩]
      = some ([⟨"r1", RResult.Dropped, none⟩], [], 0) := rfl
  have happ := claim_C4_length_ids (fun raw => if raw = [] then
      some ⟨"CONTROL_MESSAGE", "o", "g", "s", []⟩ else none)
    (fun _ _ _ => "") false [⟨"r1", [], none⟩] _ _ _ hrun
  exact ⟨hrun, happ.1, happ.2 0 ⟨"r1", [], none⟩ rfl⟩

/-- C7: the groups handed to the stream writer partition the pending
candidate stream in order: their concatenation is exactly the candidate
stream, every group holds at most 500 entries, and every group except
possibly the last holds exactly 500. -/
theorem claim_C7_batching (parse : Bytes → Option Envelope)
    (transform : Envelope → Nat → LogEvent → String) (isSas : Bool)
    (inputs : List InputRecord) (records : List ORec)
    (db : List (String × RRec)) (out : List ORec)
    (batches : List (List PutEntry)) (tot : Nat)
    (hrec : processRecords parse transform inputs = some records)
    (hdb : buildDB isSas inputs [] = some db)
    (hrun : lambdaHandlerCore parse transform isSas inputs
      = some (out, batches, tot)) :
    batches.flatten = evictedCands (fun rid => assocGet db rid) isSas 0 records ∧
    (∀ b ∈ batches, b.length ≤ 500) ∧
    (∀ (i : Nat) (b : List PutEntry), batches.get? i = some b →
      i + 1 < batches.length → b.length = 500) := by
  obtain ⟨records2, db2, st, hrec2, hdb2, hloop, hb, ht⟩ :=
    lambdaHandlerCore_elim parse transform isSas inputs out batches tot hrun
  have hr : records2 = records := Option.some.inj (hrec2.symm.trans hrec)
  have hd2 : db2 = db := Option.some.inj (hdb2.symm.trans hdb)
  rw [hr, hd2] at hloop
  have hstate := (budgetLoop_state _ _ records _ _ _ hloop (by simp)).2.2
  dsimp only at hstate
  have hcur : st.recordsToReingest
      = (chunkAcc ([] : List PutEntry) ([] : List (List PutEntry))
          (evictedCands (fun rid => assocGet db rid) isSas 0 records)).1 :=
    congrArg Prod.fst hstate
  have hbat : st.putRecordBatches
      = (chunkAcc ([] : List PutEntry) ([] : List (List PutEntry))
          (evictedCands (fun rid => assocGet db rid) isSas 0 records)).2 :=
    congrArg Prod.snd hstate
  have hE3 := chunkAcc_flatten
    (evictedCands (fun rid => assocGet db rid) isSas 0 records)
    ([] : List PutEntry) ([] : List (List PutEntry))
  simp only [List.flatten_nil, List.nil_append, List.append_nil] at hE3
  have hfull := chunkAcc_batches_full
    (evictedCands (fun rid => assocGet db rid) isSas 0 records)
    ([] : List PutEntry) ([] : List (List PutEntry))
    (by simp) (by simp)
  have hcurlt := chunkAcc_cur_lt
    (evictedCands (fun rid => assocGet db rid) isSas 0 records)
    ([] : List PutEntry) ([] : List (List PutEntry)) (by simp)
  rw [← hcur] at hE3 hcurlt
  rw [← hbat] at hE3 hfull
  refine ⟨?_, ?_, ?_⟩
  · rw [hb]
    by_cases hemp : st.recordsToReingest.isEmpty
    · rw [if_pos hemp]
      rw [List.isEmpty_iff] at hemp
      rw [hemp] at hE3
      simpa using hE3
    · rw [if_neg hemp]
      rw [List.flatten_append]
      simpa using hE3
  · intro b hbm
    rw [hb] at hbm
    rcases List.mem_append.mp hbm with hbm | hbm
    · exact le_of_eq (hfull b hbm)
    · by_cases hemp : st.recordsToReingest.isEmpty
      · rw [if_pos hemp] at hbm
        cases hbm
      · rw [if_neg hemp] at hbm
        rw [List.mem_singleton.mp hbm]
        omega
  · intro i b hib hlt
    rw [hb] at hib hlt
    by_cases hemp : st.recordsToReingest.isEmpty
    · rw [if_pos hemp, List.append_nil] at hib
      exact hfull b (List.get?_mem hib)
    · rw [if_neg hemp] at hib hlt
      simp only [List.length_append, List.length_singleton] at hlt
      have hilt : i < st.putRecordBatches.length := by omega
      rw [List.get?_append hilt] at hib
      exact hfull b (List.get?_mem hib)

/-- Witness for C7: the tiny control-message batch evicts nothing, so the
writer receives no groups and the partition facts hold trivially. -/
theorem claim_C7_witness :
    ([] : List (List PutEntry)).flatten
      = evictedCands (fun rid => assocGet [("r1", (⟨[], none⟩ : RRec))] rid) false 0
          [⟨"r1", RResult.Dropped, none⟩] ∧
    (∀ b ∈ ([] : List (List PutEntry)), b.length ≤ 500) := by
  have happ := claim_C7_batching (fun raw => if raw = [] then
      some ⟨"CONTROL_MESSAGE", "o", "g", "s", []⟩ else none)
    (fun _ _ _ => "") false [⟨"r1", [], none⟩]
    [⟨"r1", RResult.Dropped, none⟩] [("r1", ⟨[], none⟩)]
    [⟨"r1", RResult.Dropped, none⟩] [] 0 rfl rfl rfl
  exact ⟨happ.1, happ.2.1⟩

/-- C6: every evicted record contributes exactly one re-ingestion
candidate (and non-evicted records none): the candidate stream is
`evictedCands`, which appends one `getReingestionRecord` per over-budget
`Ok` record; the eviction counter equals its length; and with unique
record ids the `dataByRecordId` entry consulted for a record id holds the
base64-decoded *original* input bytes for that id, which
`getReingestionRecord` passes through as the candidate's data. -/
theorem claim_C6_reingestion_source (parse : Bytes → Option Envelope)
    (transform : Envelope → Nat → LogEvent → String) (isSas : Bool)
    (inputs : List InputRecord) (records : List ORec)
    (db : List (String × RRec)) (out : List ORec)
    (batches : List (List PutEntry)) (tot : Nat)
    (hrec : processRecords parse transform inputs = some records)
    (hdb : buildDB isSas inputs [] = some db)
    (hrun : lambdaHandlerCore parse transform isSas inputs
      = some (out, batches, tot))
    (hnd : (inputs.map InputRecord.recordId).Nodup) :
    batches.flatten = evictedCands (fun rid => assocGet db rid) isSas 0 records ∧
    tot = (evictedCands (fun rid => assocGet db rid) isSas 0 records).length ∧
    (∀ r ∈ inputs, ∃ rr, createReingestionRecord isSas r = some rr ∧
      assocGet db r.recordId = some rr ∧
      some rr.data = b64decode r.data ∧
      (getReingestionRecord isSas rr).Data = rr.data) := by
  obtain ⟨records2, db2, st, hrec2, hdb2, hloop, hb, ht⟩ :=
    lambdaHandlerCore_elim parse transform isSas inputs out batches tot hrun
  have hr : records2 = records := Option.some.inj (hrec2.symm.trans hrec)
  have hd2 : db2 = db := Option.some.inj (hdb2.symm.trans hdb)
  rw [hr, hd2] at hloop
  have hstate := budgetLoop_state _ _ records _ _ _ hloop (by simp)
  dsimp only at hstate
  have hcur : st.recordsToReingest
      = (chunkAcc ([] : List PutEntry) ([] : List (List PutEntry))
          (evictedCands (fun rid => assocGet db rid) isSas 0 records)).1 :=
    congrArg Prod.fst hstate.2.2
  have hbat : st.putRecordBatches
      = (chunkAcc ([] : List PutEntry) ([] : List (List PutEntry))
          (evictedCands (fun rid => assocGet db rid) isSas 0 records)).2 :=
    congrArg Prod.snd hstate.2.2
  refine ⟨?_, ?_, ?_⟩
  · -- same flatten argument as the batching claim
    have hE3 := chunkAcc_flatten
      (evictedCands (fun rid => assocGet db rid) isSas 0 records)
      ([] : List PutEntry) ([] : List (List PutEntry))
    simp only [List.flatten_nil, List.nil_append, List.append_nil] at hE3
    rw [← hcur, ← hbat] at hE3
    rw [hb]
    by_cases hemp : st.recordsToReingest.isEmpty
    · rw [if_pos hemp]
      rw [List.isEmpty_iff] at hemp
      rw [hemp] at hE3
      simpa using hE3
    · rw [if_neg hemp]
      rw [List.flatten_append]
      simpa using hE3
  · rw [ht]
    simpa using hstate.2.1
  · intro r hr
    obtain ⟨rr, hc, hg⟩ := buildDB_get isSas inputs [] db hdb hnd r hr
    refine ⟨rr, hc, hg, createReingestionRecord_data isSas r rr hc, ?_⟩
    unfold getReingestionRecord
    cases isSas <;> rfl

/-- Witness for C6: at the tiny control-message batch, the candidate
stream is empty, the counter is 0, and the single `dataByRecordId` entry
holds the base64-decoded original bytes of input `r1`. -/
theorem claim_C6_witness :
    ([] : List (List PutEntry)).flatten
      = evictedCands (fun rid => assocGet [("r1", (⟨[], none⟩ : RRec))] rid) false 0
          [⟨"r1", RResult.Dropped, none⟩] ∧
    (0 : Nat) = (evictedCands
        (fun rid => assocGet [("r1", (⟨[], none⟩ : RRec))] rid) false 0
        [⟨"r1", RResult.Dropped, none⟩]).length ∧
    ∃ rr, createReingestionRecord false ⟨"r1", [], none⟩ = some rr ∧
      assocGet [("r1", (⟨[], none⟩ : RRec))] "r1" = some rr ∧
      some rr.data = b64decode ([] : Bytes) := by
  have happ := claim_C6_reingestion_source (fun raw => if raw = [] then
      some ⟨"CONTROL_MESSAGE", "o", "g", "s", []⟩ else none)
    (fun _ _ _ => "") false [⟨"r1", [], none⟩]
    [⟨"r1", RResult.Dropped, none⟩] [("r1", ⟨[], none⟩)]
    [⟨"r1", RResult.Dropped, none⟩] [] 0 rfl rfl rfl (by simp)
  obtain ⟨rr, hc, hg, hdata, -⟩ := happ.2.2 ⟨"r1", [], none⟩ (by simp)
  exact ⟨happ.1, happ.2.1, rr, hc, hg, hdata⟩

end Kfs
